import Mathlib

/-!
Verification of the RSS bot core (`rss_bot.py`): a shallow embedding of the
deduplication-and-freshness decision engine and its surrounding dispatch
logic, together with theorems settling the spec's testable properties.

Modelling conventions:
* a feed entry is a record of optional fields (`None` models a missing
  dict key; feedparser's `struct_time` timestamps are modelled as integer
  epoch seconds, since the code only compares differences of seconds);
* `time.time()` is passed explicitly as `now`;
* the persisted history file's JSON payload is modelled as the list of
  strings in the array, in file order;
* the dispatch loop `main` is modelled as a function from its environment
  inputs (token, parsed address list, fetched entries, loaded history) to
  the list of externally visible events (fetches, sends, the save) plus
  the process exit code.
-/

namespace RssBot

/-- A feed entry as the script consumes it: a dict of optional fields.
`published_parsed`, `updated_parsed`, `created_parsed` carry epoch seconds
(the value `time.mktime` would return). -/
structure Entry where
  id : Option String := none
  guid : Option String := none
  link : Option String := none
  title : Option String := none
  summary : Option String := none
  description : Option String := none
  source_title : Option String := none
  published_parsed : Option Int := none
  updated_parsed : Option Int := none
  created_parsed : Option Int := none
deriving DecidableEq, Repr, Inhabited

/-- `MAX_FETCH_DAYS = 1` from the script. -/
def MAX_FETCH_DAYS : Int := 1

/-- Python truthiness of an optional string (`None` and `""` are falsy),
as used by `entry.get("id") or entry.get("guid")` and `if entry_id:`. -/
def strTruthy : Option String → Option String
  | some s => if s = "" then none else some s
  | none => none

/-- `extract_entry_id` (rss_bot.py lines 85–92):
`entry_id = entry.get("id") or entry.get("guid"); if entry_id: return str(entry_id)`
else `f"{link}::{title}"` with `link = entry.get("link", "")`,
`title = entry.get("title", "")`. -/
def extract_entry_id (e : Entry) : String :=
  match strTruthy e.id with
  | some s => s
  | none =>
    match strTruthy e.guid with
    | some s => s
    | none => (e.link.getD "") ++ "::" ++ (e.title.getD "")

/-- `extract_entry_timestamp` (lines 96–103): first of
`published_parsed`, `updated_parsed`, `created_parsed` that is present
(a present `struct_time` is always truthy), else `None`. -/
def extract_entry_timestamp (e : Entry) : Option Int :=
  match e.published_parsed with
  | some t => some t
  | none =>
    match e.updated_parsed with
    | some t => some t
    | none =>
      match e.created_parsed with
      | some t => some t
      | none => none

/-- `is_recent_entry` (lines 107–114): reject when no timestamp, else
accept iff `now - timestamp <= max_days * 24 * 60 * 60`. -/
def is_recent_entry (now : Int) (e : Entry) (max_days : Int) : Bool :=
  match extract_entry_timestamp e with
  | none => false
  | some ts => now - ts ≤ max_days * 24 * 60 * 60

/-- One iteration of the selection loop in `main` (lines 201–210): skip a
non-recent entry; skip an entry whose id is in the running history;
otherwise append it to `new_entries` and add its id to the history. -/
def selectStep (now max_days : Int) (acc : List Entry × Finset String) (e : Entry) :
    List Entry × Finset String :=
  if is_recent_entry now e max_days then
    let k := extract_entry_id e
    if k ∈ acc.2 then acc else (acc.1 ++ [e], insert k acc.2)
  else acc

/-- The selection pass of `main` (lines 201–210), as a pure function:
fold the loop body over the batch, starting from no selected entries and
the loaded history. Returns `(new_entries, updated history)`. -/
def select (now max_days : Int) (entries : List Entry) (seen : Finset String) :
    List Entry × Finset String :=
  entries.foldl (selectStep now max_days) ([], seen)

/-- `load_history` (lines 70–74): `set(json.load(file))` — the JSON array's
strings, as a set. -/
def load_history (data : List String) : Finset String :=
  data.toFinset

/-- `save_history` (lines 78–81): `json.dump(sorted(history), ...)` — the
persisted JSON array holds the keys in sorted order. -/
def save_history (history : Finset String) : List String :=
  history.sort (· ≤ ·)

/-- `shorten_text` (lines 118–122): identity when the text fits, else the
first `max_length - 3` characters followed by `"..."`. -/
def shorten_text (text : String) (max_length : Nat) : String :=
  if text.length ≤ max_length then text
  else (text.take (max_length - 3)) ++ "..."

/-- The character-level effect of `html.escape(text, quote=True)`
(`escape_html`, lines 126–128). -/
def escape_char (c : Char) : String :=
  if c = '&' then "&amp;"
  else if c = '<' then "&lt;"
  else if c = '>' then "&gt;"
  else if c = '"' then "&quot;"
  else if c = '\'' then "&#x27;"
  else String.singleton c

/-- `escape_html` (lines 126–128): `html.escape(text, quote=True)`. Python
applies the five replacements left to right starting with `&`, which is
exactly the character-wise map below. -/
def escape_html (s : String) : String :=
  String.join (s.data.map escape_char)

/-- `title = escape_html(entry.get("title", "(无标题)"))` (line 134). -/
def message_title (e : Entry) : String :=
  escape_html (e.title.getD "(无标题)")

/-- `source = escape_html(entry.get("source_title", "未知来源"))` (line 135). -/
def message_source (e : Entry) : String :=
  escape_html (e.source_title.getD "未知来源")

/-- Lines 136–138: `summary = entry.get("summary", "") or entry.get("description", "")`,
newline-to-space, strip, shorten to 200, escape. -/
def message_summary (e : Entry) : String :=
  escape_html (shorten_text
    (((if e.summary.getD "" = "" then e.description.getD "" else e.summary.getD "").replace
      "\n" " ").trim) 200)

/-- `link = escape_html(entry.get("link", ""))` (line 139). -/
def message_link (e : Entry) : String :=
  escape_html (e.link.getD "")

/-- The list `parts` that `build_message` (lines 140–146) assembles before
joining with newlines: the source-tagged title line, then a blank line and
the summary when the summary is non-empty, then the link line when the
link is non-empty. -/
def build_message_parts (e : Entry) : List String :=
  let parts := ["[" ++ message_source e ++ "] 📰 <b>" ++ message_title e ++ "</b>"]
  let parts := if message_summary e = "" then parts
    else parts ++ ["", "📝 " ++ message_summary e]
  if message_link e = "" then parts else parts ++ ["🔗 " ++ message_link e]

/-- `build_message` (lines 132–147): the parts joined with `"\n"`. -/
def build_message (e : Entry) : String :=
  String.intercalate "\n" (build_message_parts e)

/-- An externally visible action of one run: fetching one feed address,
sending one formatted message, or persisting the history file. -/
inductive Event where
  | fetch : String → Event
  | send : String → Event
  | save : List String → Event
deriving DecidableEq, Repr

/-- Whether an event is a history save. -/
def Event.isSave : Event → Bool
  | .save _ => true
  | _ => false

/-- Result of one run of `main`: the events it performed, in order, and
the process exit code. -/
structure RunResult where
  events : List Event
  exitCode : Nat
deriving DecidableEq, Repr

/-- `main` (lines 183–219) after the config/history bootstrap, as a
function of its environment: `token` is `os.getenv("TELEGRAM_BOT_TOKEN")`,
`urls` the parsed address list, `entries` what `fetch_entries` returns,
`history` the loaded seen-set, `now` the clock. Missing or empty token
(`if not token`) exits 1 before any fetch; an empty address list returns
normally (exit 0); otherwise the run fetches, selects, sends one message
per selected entry, and saves the history only when something was
selected. -/
def main_run (token : Option String) (urls : List String) (entries : List Entry)
    (history : Finset String) (now : Int) : RunResult :=
  if token.getD "" = "" then ⟨[], 1⟩
  else if urls = [] then ⟨[], 0⟩
  else
    let fetches := urls.map Event.fetch
    let result := select now MAX_FETCH_DAYS entries history
    if result.1 = [] then ⟨fetches, 0⟩
    else
      ⟨fetches ++ result.1.map (fun e => Event.send (build_message e)) ++
        [Event.save (save_history result.2)], 0⟩

/-! ### Helper lemmas about the selection pass -/

theorem selectStep_snd_subset (now d : Int) (acc : List Entry × Finset String) (e : Entry) :
    acc.2 ⊆ (selectStep now d acc e).2 := by
  unfold selectStep
  by_cases hr : is_recent_entry now e d
  · simp only [hr, if_true]
    by_cases hm : extract_entry_id e ∈ acc.2
    · simp [hm]
    · simp only [hm, if_false]
      exact Finset.subset_insert _ _
  · simp [hr]

theorem select_foldl_snd_subset (now d : Int) :
    ∀ (l : List Entry) (acc : List Entry × Finset String),
      acc.2 ⊆ (l.foldl (selectStep now d) acc).2
  | [], _ => by simp [List.foldl]
  | e :: l, acc => by
    simp only [List.foldl]
    exact (selectStep_snd_subset now d acc e).trans
      (select_foldl_snd_subset now d l (selectStep now d acc e))

theorem select_foldl_shift (now d : Int) :
    ∀ (l : List Entry) (sel : List Entry) (s : Finset String),
      l.foldl (selectStep now d) (sel, s) =
        (sel ++ (l.foldl (selectStep now d) ([], s)).1,
          (l.foldl (selectStep now d) ([], s)).2)
  | [], sel, s => by simp [List.foldl]
  | e :: l, sel, s => by
    simp only [List.foldl]
    by_cases hr : is_recent_entry now e d
    · by_cases hm : extract_entry_id e ∈ s
      · simp only [selectStep, hr, if_true, hm, if_true]
        exact select_foldl_shift now d l sel s
      · simp only [selectStep, hr, if_true, hm, if_false, List.nil_append]
        rw [select_foldl_shift now d l (sel ++ [e]) (insert (extract_entry_id e) s),
          select_foldl_shift now d l [e] (insert (extract_entry_id e) s)]
        simp [List.append_assoc]
    · simp only [selectStep, hr, if_false]
      exact select_foldl_shift now d l sel s

theorem select_foldl_snd_eq_union (now d : Int) :
    ∀ (l : List Entry) (s : Finset String),
      (l.foldl (selectStep now d) ([], s)).2 =
        s ∪ ((l.foldl (selectStep now d) ([], s)).1.map (extract_entry_id)).toFinset
  | [], s => by simp [List.foldl]
  | e :: l, s => by
    simp only [List.foldl]
    by_cases hr : is_recent_entry now e d
    · by_cases hm : extract_entry_id e ∈ s
      · simp only [selectStep, hr, if_true, hm, if_true]
        exact select_foldl_snd_eq_union now d l s
      · simp only [selectStep, hr, if_true, hm, if_false, List.nil_append]
        rw [select_foldl_shift now d l [e] (insert (extract_entry_id e) s)]
        have ih := select_foldl_snd_eq_union now d l (insert (extract_entry_id e) s)
        simp only [ih, List.map_append, List.map_cons, List.map_nil]
        ext x
        simp [or_assoc, or_comm, or_left_comm]
    · simp only [selectStep, hr, if_false]
      exact select_foldl_snd_eq_union now d l s

theorem select_foldl_mem_fst (now d : Int) :
    ∀ (l : List Entry) (s : Finset String) (x : Entry),
      x ∈ (l.foldl (selectStep now d) ([], s)).1 →
        x ∈ l ∧ is_recent_entry now x d = true ∧ extract_entry_id x ∉ s
  | [], s, x => by simp [List.foldl]
  | e :: l, s, x => by
    simp only [List.foldl]
    by_cases hr : is_recent_entry now e d
    · by_cases hm : extract_entry_id e ∈ s
      · simp only [selectStep, hr, if_true, hm, if_true]
        intro h
        rcases select_foldl_mem_fst now d l s x h with ⟨h1, h2, h3⟩
        exact ⟨List.mem_cons_of_mem _ h1, h2, h3⟩
      · simp only [selectStep, hr, if_true, hm, if_false, List.nil_append]
        rw [select_foldl_shift now d l [e] (insert (extract_entry_id e) s)]
        intro h
        rcases List.mem_append.1 h with h | h
        · rcases List.mem_singleton.1 h with rfl
          exact ⟨List.mem_cons_self _ _, hr, hm⟩
        · rcases select_foldl_mem_fst now d l (insert (extract_entry_id e) s) x h with
            ⟨h1, h2, h3⟩
          exact ⟨List.mem_cons_of_mem _ h1, h2, fun hx => h3 (Finset.mem_insert_of_mem hx)⟩
    · simp only [selectStep, hr, if_false]
      intro h
      rcases select_foldl_mem_fst now d l s x h with ⟨h1, h2, h3⟩
      exact ⟨List.mem_cons_of_mem _ h1, h2, h3⟩

theorem select_foldl_key_mem_snd (now d : Int) :
    ∀ (l : List Entry) (acc : List Entry × Finset String) (e : Entry),
      e ∈ l → is_recent_entry now e d = true →
        extract_entry_id e ∈ (l.foldl (selectStep now d) acc).2
  | [], _, e => by simp
  | x :: l, acc, e => by
    intro hmem hr
    simp only [List.foldl]
    rcases List.mem_cons.1 hmem with rfl | hmem
    · have hstep : extract_entry_id e ∈ (selectStep now d acc e).2 := by
        unfold selectStep
        simp only [hr, if_true]
        by_cases hm : extract_entry_id e ∈ acc.2
        · simp [selectStep, hr, hm]
        · simp [hm]
      exact select_foldl_snd_subset now d l _ hstep
    · exact select_foldl_key_mem_snd now d l _ e hmem hr

theorem select_foldl_no_new (now d : Int) :
    ∀ (l : List Entry) (sel : List Entry) (s : Finset String),
      (∀ e ∈ l, is_recent_entry now e d = true → extract_entry_id e ∈ s) →
        l.foldl (selectStep now d) (sel, s) = (sel, s)
  | [], sel, s => fun _ => by simp [List.foldl]
  | e :: l, sel, s => by
    intro h
    simp only [List.foldl]
    have hstep : selectStep now d (sel, s) e = (sel, s) := by
      unfold selectStep
      by_cases hr : is_recent_entry now e d
      · simp [hr, h e (List.mem_cons_self _ _) hr]
      · simp [hr]
    rw [hstep]
    exact select_foldl_no_new now d l sel s fun x hx => h x (List.mem_cons_of_mem _ hx)

/-! ### Claim theorems -/

/-- C1: Selection is idempotent — for every entry batch and every initial
seen-set, running the selection pass a second time over the same batch
with the seen-set input equal to the first run's updated seen-set selects
zero entries. -/
theorem select_idempotent (now max_days : Int) (entries : List Entry) (seen : Finset String) :
    (select now max_days entries (select now max_days entries seen).2).1 = [] := by
  unfold select
  rw [select_foldl_no_new now max_days entries []
    (entries.foldl (selectStep now max_days) ([], seen)).2
    (fun e he hr => select_foldl_key_mem_snd now max_days entries ([], seen) e he hr)]

/-- C5: Seen-set augmentation and monotonicity — the updated seen-set
equals the input seen-set union the identity keys of exactly the selected
entries, and in particular no key of the input seen-set is ever removed. -/
theorem select_seen_augmentation (now max_days : Int) (entries : List Entry)
    (seen : Finset String) :
    (select now max_days entries seen).2 =
      seen ∪ ((select now max_days entries seen).1.map extract_entry_id).toFinset ∧
    seen ⊆ (select now max_days entries seen).2 :=
  ⟨select_foldl_snd_eq_union now max_days entries seen,
   select_foldl_snd_subset now max_days entries ([], seen)⟩

/-- C3: Freshness filter — `is_recent_entry` accepts exactly the entries
with an extractable timestamp whose age `now - timestamp` is at most
`max_days * 86400` seconds; the boundary is inclusive (an entry exactly
`max_days * 86400` seconds old is accepted, one second older is not);
an entry with no extractable timestamp is rejected and never selected,
regardless of the seen-set. -/
theorem is_recent_entry_spec (now max_days : Int) (e : Entry) :
    (is_recent_entry now e max_days = true ↔
      ∃ ts, extract_entry_timestamp e = some ts ∧ now - ts ≤ max_days * 86400) ∧
    (extract_entry_timestamp e = some (now - max_days * 86400) →
      is_recent_entry now e max_days = true) ∧
    (extract_entry_timestamp e = some (now - max_days * 86400 - 1) →
      is_recent_entry now e max_days = false) ∧
    (extract_entry_timestamp e = none →
      ∀ (entries : List Entry) (seen : Finset String),
        e ∉ (select now max_days entries seen).1) ∧
    (∀ tp, e.published_parsed = some tp → extract_entry_timestamp e = some tp) ∧
    (e.published_parsed = none →
      ∀ tu, e.updated_parsed = some tu → extract_entry_timestamp e = some tu) ∧
    (e.published_parsed = none → e.updated_parsed = none →
      extract_entry_timestamp e = e.created_parsed) := by
  have hconv : max_days * 24 * 60 * 60 = max_days * 86400 := by ring
  refine ⟨?_, ?_, ?_, ?_, ?_, ?_, ?_⟩
  · unfold is_recent_entry
    cases hts : extract_entry_timestamp e with
    | none => simp
    | some ts => simp [hconv]
  · intro h
    unfold is_recent_entry
    rw [h]
    simp [hconv]
  · intro h
    unfold is_recent_entry
    rw [h]
    simp [hconv]
    omega
  · intro h entries seen hmem
    have hr := (select_foldl_mem_fst now max_days entries seen e hmem).2.1
    unfold is_recent_entry at hr
    rw [h] at hr
    exact Bool.false_ne_true hr
  · intro tp hp
    unfold extract_entry_timestamp
    rw [hp]
  · intro hp tu hu
    unfold extract_entry_timestamp
    rw [hp, hu]
  · intro hp hu
    unfold extract_entry_timestamp
    rw [hp, hu]
    cases e.created_parsed <;> rfl

/-- Witness for C3 at concrete inputs: an undated entry is rejected and
not selected; an entry exactly 86400 seconds old is accepted; one second
older is rejected. -/
theorem is_recent_entry_spec_witness :
    (({} : Entry) ∉ (select 0 1 [{}] ∅).1) ∧
    is_recent_entry 0 { published_parsed := some (0 - 1 * 86400) } 1 = true ∧
    is_recent_entry 0 { published_parsed := some (0 - 1 * 86400 - 1) } 1 = false ∧
    extract_entry_timestamp { published_parsed := some 5, updated_parsed := some 7 } = some 5 :=
  ⟨(is_recent_entry_spec 0 1 {}).2.2.2.1 rfl [{}] ∅,
   (is_recent_entry_spec 0 1 { published_parsed := some (0 - 1 * 86400) }).2.1 rfl,
   (is_recent_entry_spec 0 1 { published_parsed := some (0 - 1 * 86400 - 1) }).2.2.1 rfl,
   (is_recent_entry_spec 0 1 { published_parsed := some 5, updated_parsed := some 7 }).2.2.2.2.1
      5 rfl⟩

/-- C7: Seen-set store round-trip — `load` after `save` recovers the set,
re-serializing what was serialized is a no-op on the persisted content,
the persisted content is sorted, and serialization is deterministic: any
two saves of equal sets produce identical persisted content. -/
theorem history_round_trip (S T : Finset String) :
    load_history (save_history S) = S ∧
    save_history (load_history (save_history S)) = save_history S ∧
    List.Sorted (· ≤ ·) (save_history S) ∧
    save_history (load_history []) = [] ∧
    ((∀ x, x ∈ S ↔ x ∈ T) → save_history S = save_history T) := by
  have hload : load_history (save_history S) = S := Finset.sort_toFinset _ S
  refine ⟨hload, by rw [hload], Finset.sort_sorted _ S,
    by rw [load_history, List.toFinset_nil, save_history, Finset.sort_empty], ?_⟩
  intro h
  have : S = T := Finset.ext h
  rw [this]

/-- Witness for C7: determinism applied to two syntactically different
literals of the same set. -/
theorem history_round_trip_witness :
    save_history {"rss"} = save_history {"rss", "rss"} :=
  (history_round_trip {"rss"} {"rss", "rss"}).2.2.2.2 (by intro x; simp)

theorem selectStep_selects (now d : Int) (acc : List Entry × Finset String) (e : Entry)
    (hr : is_recent_entry now e d = true) (hm : extract_entry_id e ∉ acc.2) :
    selectStep now d acc e = (acc.1 ++ [e], insert (extract_entry_id e) acc.2) := by
  unfold selectStep
  simp [hr, hm]

theorem string_append_left_cancel (s t1 t2 : String) : s ++ t1 = s ++ t2 ↔ t1 = t2 := by
  constructor
  · intro h
    have hd := congrArg String.data h
    rw [String.data_append, String.data_append] at hd
    exact String.ext (List.append_cancel_left hd)
  · intro h
    rw [h]

/-- C2: Within-batch deduplication — in a batch `l1 ++ a :: l2 ++ b :: l3`
where `a` and `b` share an identity key, both are recent, the key is fresh
with respect to the input seen-set, and `a` is the first occurrence of the
key in batch order, `a` is selected and exactly one selected entry carries
that key. In particular, for entries with no id/guid and the same link,
identity keys collide exactly when the titles are equal. -/
theorem select_within_batch_dedup (now max_days : Int) (seen : Finset String)
    (l1 l2 l3 : List Entry) (a b : Entry)
    (hkey : extract_entry_id b = extract_entry_id a)
    (hra : is_recent_entry now a max_days = true)
    (hrb : is_recent_entry now b max_days = true)
    (hfresh : extract_entry_id a ∉ seen)
    (hfirst : ∀ e ∈ l1, extract_entry_id e ≠ extract_entry_id a) :
    (a ∈ (select now max_days (l1 ++ a :: (l2 ++ b :: l3)) seen).1 ∧
      (select now max_days (l1 ++ a :: (l2 ++ b :: l3)) seen).1.countP
        (fun e => extract_entry_id e == extract_entry_id a) = 1) ∧
    (∀ (lnk t1 t2 : String) (e1 e2 : Entry),
      e1.id = none → e1.guid = none → e1.link = some lnk → e1.title = some t1 →
      e2.id = none → e2.guid = none → e2.link = some lnk → e2.title = some t2 →
      (extract_entry_id e1 = extract_entry_id e2 ↔ t1 = t2)) := by
  constructor
  · unfold select
    rw [List.foldl_append]
    have hnotin : extract_entry_id a ∉ (l1.foldl (selectStep now max_days) ([], seen)).2 := by
      rw [select_foldl_snd_eq_union now max_days l1 seen]
      intro hmem
      rcases Finset.mem_union.1 hmem with h | h
      · exact hfresh h
      · rw [List.mem_toFinset] at h
        rcases List.mem_map.1 h with ⟨x, hx, hxk⟩
        exact hfirst x (select_foldl_mem_fst now max_days l1 seen x hx).1 hxk
    simp only [List.foldl_cons]
    have hstep : selectStep now max_days (l1.foldl (selectStep now max_days) ([], seen)) a =
        ((l1.foldl (selectStep now max_days) ([], seen)).1 ++ [a],
          insert (extract_entry_id a) (l1.foldl (selectStep now max_days) ([], seen)).2) := by
      exact selectStep_selects now max_days _ a hra hnotin
    rw [hstep, select_foldl_shift now max_days (l2 ++ b :: l3)
      ((l1.foldl (selectStep now max_days) ([], seen)).1 ++ [a])
      (insert (extract_entry_id a) (l1.foldl (selectStep now max_days) ([], seen)).2)]
    constructor
    · simp
    · rw [List.countP_append, List.countP_append]
      have h1 : (l1.foldl (selectStep now max_days) ([], seen)).1.countP
          (fun e => extract_entry_id e == extract_entry_id a) = 0 := by
        refine List.countP_eq_zero.2 fun x hx => ?_
        simpa using hfirst x (select_foldl_mem_fst now max_days l1 seen x hx).1
      have h2 : ((l2 ++ b :: l3).foldl (selectStep now max_days)
            ([], insert (extract_entry_id a)
              (l1.foldl (selectStep now max_days) ([], seen)).2)).1.countP
          (fun e => extract_entry_id e == extract_entry_id a) = 0 := by
        refine List.countP_eq_zero.2 fun x hx => ?_
        have := (select_foldl_mem_fst now max_days (l2 ++ b :: l3) _ x hx).2.2
        simp only [beq_iff_eq, decide_eq_true_eq]
        intro hxa
        exact this (hxa ▸ Finset.mem_insert_self _ _)
      rw [h1, h2]
      simp
  · intro lnk t1 t2 e1 e2 h1 h2 h3 h4 h5 h6 h7 h8
    unfold extract_entry_id strTruthy
    rw [h1, h2, h3, h4, h5, h6, h7, h8]
    simp only [Option.getD_some]
    exact string_append_left_cancel (lnk ++ "::") t1 t2

/-- Witness for C2: a concrete two-entry batch with equal fallback keys
selects only the first entry; and the fallback key comparison at concrete
entries with equal/different titles. -/
theorem select_within_batch_dedup_witness :
    (let a : Entry := { link := some "l", title := some "t", published_parsed := some 0 }
     let b : Entry := { link := some "l", title := some "t", published_parsed := some 5 }
     a ∈ (select 10 1 [a, b] ∅).1 ∧
      (select 10 1 [a, b] ∅).1.countP
        (fun e => extract_entry_id e == extract_entry_id a) = 1) ∧
    (extract_entry_id { link := some "l", title := some "t" } =
        extract_entry_id ({ link := some "l", title := some "t", published_parsed := some 5 } : Entry) ↔
      ("t" : String) = "t") :=
  ⟨(select_within_batch_dedup 10 1 ∅ [] [] []
      { link := some "l", title := some "t", published_parsed := some 0 }
      { link := some "l", title := some "t", published_parsed := some 5 }
      rfl (by decide) (by decide) (by decide) (by intro e he; cases he)).1,
   (select_within_batch_dedup 10 1 ∅ [] [] []
      { link := some "l", title := some "t", published_parsed := some 0 }
      { link := some "l", title := some "t", published_parsed := some 5 }
      rfl (by decide) (by decide) (by decide) (by intro e he; cases he)).2
      "l" "t" "t" { link := some "l", title := some "t" }
      { link := some "l", title := some "t", published_parsed := some 5 }
      rfl rfl rfl rfl rfl rfl rfl rfl⟩

/-- C4 counterexample: the fallback separator used by `extract_entry_id`
is not a three-character string — no three-character separator `sep`
satisfies `extract_entry_id e = link ++ sep ++ title` for all entries
without id/guid; at link `""` and title `""` the key is `"::"`, whose
length is 2. -/
theorem extract_entry_id_sep_not_three_chars :
    ¬ ∃ sep : String, sep.length = 3 ∧
      ∀ lnk ttl : String,
        extract_entry_id { link := some lnk, title := some ttl } = lnk ++ sep ++ ttl := by
  rintro ⟨sep, hlen, hall⟩
  have h : ("" : String) ++ "::" ++ "" = "" ++ sep ++ "" := hall "" ""
  have hl := congrArg String.length h
  rw [String.length_append, String.length_append, String.length_append,
    String.length_append] at hl
  have h2 : ("::" : String).length = 2 := by decide
  have h0 : ("" : String).length = 0 := by decide
  rw [h2, h0, hlen] at hl
  omega

/-- C4 (amended): `extract_entry_id` is a total function; it returns the
entry's `id` field if supplied (non-empty), else the `guid` field if
supplied (non-empty), and if neither is present it returns the link and
the title concatenated with the two-character separator `"::"`. -/
theorem extract_entry_id_contract (e : Entry) :
    (∀ s, e.id = some s → s ≠ "" → extract_entry_id e = s) ∧
    ((e.id = none ∨ e.id = some "") →
      ∀ s, e.guid = some s → s ≠ "" → extract_entry_id e = s) ∧
    ((e.id = none ∨ e.id = some "") → (e.guid = none ∨ e.guid = some "") →
      extract_entry_id e = (e.link.getD "") ++ "::" ++ (e.title.getD "") ∧
      ("::" : String).length = 2) := by
  refine ⟨?_, ?_, ?_⟩
  · intro s hs hne
    unfold extract_entry_id strTruthy
    rw [hs]
    simp [hne]
  · intro hid s hs hne
    unfold extract_entry_id strTruthy
    rcases hid with hid | hid <;> rw [hid, hs] <;> simp [hne]
  · intro hid hguid
    refine ⟨?_, by decide⟩
    unfold extract_entry_id strTruthy
    rcases hid with hid | hid <;> rcases hguid with hguid | hguid <;>
      rw [hid, hguid] <;> simp

/-- Witness for C4 at concrete entries: an id wins over everything, an
empty id defers to the guid, and absent id/guid produce the
`link ++ "::" ++ title` fallback. -/
theorem extract_entry_id_contract_witness :
    extract_entry_id { id := some "ID1", guid := some "G1" } = "ID1" ∧
    extract_entry_id { id := some "", guid := some "G1" } = "G1" ∧
    extract_entry_id { link := some "L", title := some "T" } = "L" ++ "::" ++ "T" :=
  ⟨(extract_entry_id_contract _).1 "ID1" rfl (by decide),
   (extract_entry_id_contract { id := some "", guid := some "G1" }).2.1
      (Or.inr rfl) "G1" rfl (by decide),
   ((extract_entry_id_contract { link := some "L", title := some "T" }).2.2
      (Or.inl rfl) (Or.inl rfl)).1⟩

/-- C10: an id field holding the empty string is treated as absent —
extraction behaves as if `id` were missing, falls through to the guid and
then to the link-and-title fallback, and never returns the empty string
as the key. -/
theorem extract_entry_id_empty_id (e : Entry) (h : e.id = some "") :
    extract_entry_id e = extract_entry_id { e with id := none } ∧
    ((e.guid = none ∨ e.guid = some "") →
      extract_entry_id e = (e.link.getD "") ++ "::" ++ (e.title.getD "")) ∧
    extract_entry_id e ≠ "" := by
  have hfall : ∀ lnk ttl : String, lnk ++ "::" ++ ttl ≠ "" := by
    intro lnk ttl hEq
    have hl := congrArg String.length hEq
    rw [String.length_append, String.length_append] at hl
    have h2 : ("::" : String).length = 2 := by decide
    have h0 : ("" : String).length = 0 := by decide
    rw [h2, h0] at hl
    omega
  refine ⟨?_, ?_, ?_⟩
  · unfold extract_entry_id strTruthy
    rw [h]
    simp
  · intro hguid
    unfold extract_entry_id strTruthy
    rcases hguid with hguid | hguid <;> rw [h, hguid] <;> simp
  · unfold extract_entry_id strTruthy
    rw [h]
    simp only [if_pos rfl]
    cases hg : e.guid with
    | none => exact hfall _ _
    | some g =>
      by_cases hge : g = ""
      · simp [hge]
        exact hfall _ _
      · simp [hge]

/-- Witness for C10: a concrete entry with `id = ""`, no guid. -/
theorem extract_entry_id_empty_id_witness :
    extract_entry_id { id := some "", link := some "L", title := some "T" } =
      extract_entry_id { id := none, link := some "L", title := some "T" } ∧
    extract_entry_id { id := some "", link := some "L", title := some "T" } ≠ "" :=
  ⟨(extract_entry_id_empty_id { id := some "", link := some "L", title := some "T" } rfl).1,
   (extract_entry_id_empty_id { id := some "", link := some "L", title := some "T" } rfl).2.2⟩

/-- C8: Process exit behavior — a missing (or empty) credential exits
with the distinct non-zero status 1 before any activity (no fetch, no
send, no save); an empty address list is a zero-exit no-op; and a normal
run exits zero whether or not anything was sent. -/
theorem main_exit_behavior (token : Option String) (urls : List String)
    (entries : List Entry) (history : Finset String) (now : Int) :
    ((token = none ∨ token = some "") →
      main_run token urls entries history now = ⟨[], 1⟩) ∧
    (∀ t, token = some t → t ≠ "" → urls = [] →
      main_run token urls entries history now = ⟨[], 0⟩) ∧
    (∀ t, token = some t → t ≠ "" → urls ≠ [] →
      (main_run token urls entries history now).exitCode = 0) := by
  refine ⟨?_, ?_, ?_⟩
  · rintro (h | h) <;> simp [main_run, h]
  · intro t ht hne hurls
    simp [main_run, ht, hne, hurls]
  · intro t ht hne hurls
    unfold main_run
    rw [ht]
    simp only [Option.getD_some, if_neg hne, if_neg hurls]
    by_cases hsel : (select now MAX_FETCH_DAYS entries history).1 = [] <;> simp [hsel]

/-- Witness for C8: the three exit modes at concrete inputs. -/
theorem main_exit_behavior_witness :
    main_run none ["u"] [] ∅ 0 = ⟨[], 1⟩ ∧
    main_run (some "k") [] [] ∅ 0 = ⟨[], 0⟩ ∧
    (main_run (some "k") ["u"] [] ∅ 0).exitCode = 0 :=
  ⟨(main_exit_behavior none ["u"] [] ∅ 0).1 (Or.inl rfl),
   (main_exit_behavior (some "k") [] [] ∅ 0).2.1 "k" rfl (by decide) rfl,
   (main_exit_behavior (some "k") ["u"] [] ∅ 0).2.2 "k" rfl (by decide) (by decide)⟩

/-- C6: Persistence conditioning and ordering — each run saves the
history at most once; when nothing is selected the history file is not
written at all; and when a save happens it is the final event, after a
send was attempted for every selected entry. -/
theorem main_persistence (token : Option String) (urls : List String)
    (entries : List Entry) (history : Finset String) (now : Int) :
    ((main_run token urls entries history now).events.countP Event.isSave ≤ 1) ∧
    ((select now MAX_FETCH_DAYS entries history).1 = [] →
      (main_run token urls entries history now).events.countP Event.isSave = 0) ∧
    (∀ d, Event.save d ∈ (main_run token urls entries history now).events →
      (select now MAX_FETCH_DAYS entries history).1 ≠ [] ∧
      ∃ pre, (main_run token urls entries history now).events = pre ++ [Event.save d] ∧
        ∀ e ∈ (select now MAX_FETCH_DAYS entries history).1,
          Event.send (build_message e) ∈ pre) := by
  unfold main_run
  by_cases htok : token.getD "" = ""
  · simp [htok, Event.isSave]
  · by_cases hurls : urls = []
    · simp [htok, hurls, Event.isSave]
    · have hfetch0 : (urls.map Event.fetch).countP Event.isSave = 0 :=
        List.countP_eq_zero.2 fun ev hev => by
          rcases List.mem_map.1 hev with ⟨u, _, rfl⟩
          simp [Event.isSave]
      have hnofetchsave : ∀ d, Event.save d ∉ urls.map Event.fetch := fun d hd => by
        rcases List.mem_map.1 hd with ⟨u, _, h⟩
        cases h
      by_cases hsel : (select now MAX_FETCH_DAYS entries history).1 = []
      · simp only [if_neg htok, if_neg hurls]
        rw [if_pos hsel]
        refine ⟨by rw [hfetch0]; omega, fun _ => hfetch0, fun d hd => absurd hd (hnofetchsave d)⟩
      · have hsend0 : ((select now MAX_FETCH_DAYS entries history).1.map
            (fun e => Event.send (build_message e))).countP Event.isSave = 0 :=
          List.countP_eq_zero.2 fun ev hev => by
            rcases List.mem_map.1 hev with ⟨x, _, rfl⟩
            simp [Event.isSave]
        simp only [if_neg htok, if_neg hurls]
        rw [if_neg hsel]
        refine ⟨?_, fun h => absurd h hsel, ?_⟩
        · rw [List.countP_append, List.countP_append, hfetch0, hsend0]
          simp [Event.isSave]
        · intro d hd
          refine ⟨hsel, ?_⟩
          have hd' : d = save_history (select now MAX_FETCH_DAYS entries history).2 := by
            rcases List.mem_append.1 hd with hd1 | hd1
            · rcases List.mem_append.1 hd1 with hd2 | hd2
              · exact absurd hd2 (hnofetchsave d)
              · rcases List.mem_map.1 hd2 with ⟨x, _, h⟩
                cases h
            · rcases List.mem_singleton.1 hd1 with h
              cases h
              rfl
          subst hd'
          refine ⟨urls.map Event.fetch ++ (select now MAX_FETCH_DAYS entries history).1.map
            (fun e => Event.send (build_message e)), by rw [List.append_assoc], ?_⟩
          intro e he
          exact List.mem_append.2 (Or.inr (List.mem_map.2 ⟨e, he, rfl⟩))

/-- A concrete recent entry used by witnesses: fallback key `"l::t"`. -/
def sample_entry : Entry := { link := some "l", title := some "t", published_parsed := some 0 }

/-- Witness for C6: a concrete run that selects one entry saves the
history exactly once, as the final event, after that entry's send. -/
theorem main_persistence_witness :
    (select 0 MAX_FETCH_DAYS [sample_entry] ∅).1 ≠ [] ∧
    ∃ pre, (main_run (some "k") ["u"] [sample_entry] ∅ 0).events =
        pre ++ [Event.save (save_history (select 0 MAX_FETCH_DAYS [sample_entry] ∅).2)] ∧
      ∀ e ∈ (select 0 MAX_FETCH_DAYS [sample_entry] ∅).1,
        Event.send (build_message e) ∈ pre :=
  (main_persistence (some "k") ["u"] [sample_entry] ∅ 0).2.2
    (save_history (select 0 MAX_FETCH_DAYS [sample_entry] ∅).2)
    (by
      have h : (main_run (some "k") ["u"] [sample_entry] ∅ 0).events =
          [Event.fetch "u", Event.send (build_message sample_entry),
            Event.save (save_history (select 0 MAX_FETCH_DAYS [sample_entry] ∅).2)] := rfl
      rw [h]
      exact List.mem_cons_of_mem _ (List.mem_cons_of_mem _ (List.mem_cons_self _ _)))

/-- C9: Notification formatter contract — `build_message` is a pure total
Lean function of the entry alone (it never fails); a missing title or a
missing source is replaced by its placeholder string; a body longer than
the 200-character bound is truncated to exactly 200 characters and ends
with the `"..."` truncation marker; and the rendered parts appear in the
order source-tagged title line, blank line plus body (when a body is
present), then link line (when a link is present). -/
theorem build_message_contract (e : Entry) (body : String) :
    (e.title = none → build_message e = build_message { e with title := some "(无标题)" }) ∧
    (e.source_title = none →
      build_message e = build_message { e with source_title := some "未知来源" }) ∧
    (200 < body.length →
      (∃ pre, shorten_text body 200 = pre ++ "...") ∧ (shorten_text body 200).length = 200) ∧
    (build_message e = String.intercalate "\n" (build_message_parts e) ∧
      ∃ bodyTail linkTail,
        build_message_parts e =
          ("[" ++ message_source e ++ "] 📰 <b>" ++ message_title e ++ "</b>") ::
            (bodyTail ++ linkTail) ∧
        (bodyTail = [] ∨ bodyTail = ["", "📝 " ++ message_summary e] ∧ message_summary e ≠ "") ∧
        (linkTail = [] ∨ linkTail = ["🔗 " ++ message_link e] ∧ message_link e ≠ "")) := by
  refine ⟨?_, ?_, ?_, rfl, ?_⟩
  · intro h
    simp [build_message, build_message_parts, message_title, message_source,
      message_summary, message_link, h]
  · intro h
    simp [build_message, build_message_parts, message_title, message_source,
      message_summary, message_link, h]
  · intro h
    have hnot : ¬ body.length ≤ 200 := by omega
    constructor
    · exact ⟨body.take 197, by unfold shorten_text; rw [if_neg hnot]⟩
    · unfold shorten_text
      rw [if_neg hnot, String.length_append]
      have htake : (body.take 197).length = 197 := by
        rw [String.take_eq, String.length_mk, List.length_take, String.length_data]
        omega
      have hdots : ("..." : String).length = 3 := by decide
      rw [htake, hdots]
  · by_cases hs : message_summary e = "" <;> by_cases hl : message_link e = ""
    · exact ⟨[], [], by simp [build_message_parts, hs, hl], Or.inl rfl, Or.inl rfl⟩
    · exact ⟨[], ["🔗 " ++ message_link e], by simp [build_message_parts, hs, hl],
        Or.inl rfl, Or.inr ⟨rfl, hl⟩⟩
    · exact ⟨["", "📝 " ++ message_summary e], [], by simp [build_message_parts, hs, hl],
        Or.inr ⟨rfl, hs⟩, Or.inl rfl⟩
    · exact ⟨["", "📝 " ++ message_summary e], ["🔗 " ++ message_link e],
        by simp [build_message_parts, hs, hl], Or.inr ⟨rfl, hs⟩, Or.inr ⟨rfl, hl⟩⟩

/-- Witness for C9: the placeholder substitution at an all-empty entry,
and truncation of a concrete 201-character body. -/
theorem build_message_contract_witness :
    build_message ({} : Entry) = build_message { ({} : Entry) with title := some "(无标题)" } ∧
    (∃ pre, shorten_text (String.mk (List.replicate 201 'a')) 200 = pre ++ "...") ∧
    (shorten_text (String.mk (List.replicate 201 'a')) 200).length = 200 :=
  ⟨(build_message_contract {} "").1 rfl,
   ((build_message_contract {} (String.mk (List.replicate 201 'a'))).2.2.1
      (by rw [String.length_mk, List.length_replicate]; omega)).1,
   ((build_message_contract {} (String.mk (List.replicate 201 'a'))).2.2.1
      (by rw [String.length_mk, List.length_replicate]; omega)).2⟩

end RssBot
